import Mathlib

/-!
Verification of `profiler.py` (snort-rule-profiler).

The script reads a Snort log, separates the lines by originating process id
(the rightmost `[<digits>]:` token of a line), keeps only the streams that
contain the literal heading `Rule Profile Statistics (all rules)`, parses the
fixed twelve-field profiling rows, averages each numeric field per rule
signature `gid:sid:rev`, and prints a report sorted by mean rank.

The embedding below works on `List Char` lines.  The three regexes of the
source are embedded as character-level scanners with the same backtracking
semantics: a leading greedy `.*` means the rightmost position at which the
remainder of the pattern matches wins, and inside the pattern every
character class (digits, single spaces, `[`, `]`, `:`, `.`) is disjoint
from its neighbour, so each capture is the maximal run of its class.

Numeric aggregation is modelled in exact arithmetic over `ℚ` where the
source uses Python IEEE-754 doubles; the properties proved below (which
lines are retained, stream counts, report ordering and permutation
invariance) do not depend on the numeric representation, while bit-exact
float rounding claims are treated separately.
-/

set_option allowUnsafeReducibility true
attribute [local semireducible] Rat.add Rat.mul Rat.sub Rat.inv

namespace SnortProfiler

/-- Does the pattern `pat` occur as a contiguous substring of `s`?  This is
`re.search` for a regex consisting only of literal characters (the escaped
parens in `SCAN_HEADER` are literal). -/
def containsSub (pat : List Char) : List Char → Bool
  | [] => pat.isEmpty
  | c :: rest => pat.isPrefixOf (c :: rest) || containsSub pat rest

/-- The literal searched for by `SCAN_HEADER = "Rule Profile Statistics \(all rules\)"`. -/
def headerLit : List Char := ("Rule Profile Statistics (all rules)").toList

/-- `scanHeader.search(line)`: the line contains the profiling-table header literal. -/
def containsHeader (l : List Char) : Bool := containsSub headerLit l

/-- Python `str.rstrip()`: drop trailing whitespace. -/
def rstrip (l : List Char) : List Char := (l.reverse.dropWhile Char.isWhitespace).reverse

/-- Attempt to match `\[(\d+)\]:` at the head of the list, returning the
captured digits.  `\d+` is greedy, and the character after the maximal digit
run must be `]` for the match to succeed, so the capture is the maximal run. -/
def tryPidAt : List Char → Option (List Char)
  | [] => none
  | c :: r =>
    if c = '[' then
      let ds := r.takeWhile Char.isDigit
      if ds.isEmpty then none
      else
        match r.dropWhile Char.isDigit with
        | ']' :: ':' :: _ => some ds
        | _ => none
    else none

/-- `scanPid = re.compile(".*\[(\d+)\]:.*")`, applied with `.match`.  The
leading `.*` is greedy, so the captured pid is taken from the rightmost
`[<digits>]:` token of the line; the trailing `.*` always matches. -/
def scanPid : List Char → Option (List Char)
  | [] => none
  | c :: r =>
    match scanPid r with
    | some p => some p
    | none => tryPidAt (c :: r)

/-- Maximal run of digit characters at the head (`\d+`), failing on the
empty run. -/
def parseDigits (cs : List Char) : Option (List Char × List Char) :=
  let ds := cs.takeWhile Char.isDigit
  if ds.isEmpty then none else some (ds, cs.dropWhile Char.isDigit)

/-- Maximal run of space characters at the head (`[ ]+`), failing on the
empty run; only the remainder is needed. -/
def parseSpaces (cs : List Char) : Option (List Char) :=
  let ss := cs.takeWhile (fun c => c == ' ')
  if ss.isEmpty then none else some (cs.dropWhile (fun c => c == ' '))

/-- One `[ ]+(\d+)` step of the stat-row pattern. -/
def parseSepInt (cs : List Char) : Option (List Char × List Char) :=
  match parseSpaces cs with
  | none => none
  | some r => parseDigits r

/-- One `[ ]+(\d+\.\d+)` step of the stat-row pattern; the capture is the
whole `<digits>.<digits>` text. -/
def parseSepDec (cs : List Char) : Option (List Char × List Char) :=
  match parseSpaces cs with
  | none => none
  | some r =>
    match parseDigits r with
    | none => none
    | some (a, r2) =>
      match r2 with
      | '.' :: r3 =>
        match parseDigits r3 with
        | none => none
        | some (b, r4) => some (a ++ '.' :: b, r4)
      | _ => none

/-- The twelve capture groups of `scanStatLine`, as text. -/
structure StatGroups where
  rank : List Char
  sid : List Char
  gid : List Char
  rev : List Char
  checks : List Char
  matchesF : List Char
  alerts : List Char
  ms : List Char
  ac : List Char
  am : List Char
  an : List Char
  dis : List Char
deriving DecidableEq, Repr

/-- The twelve `[ ]+(...)` capture steps of the stat-row pattern, run on the
text after `]:`, binding each capture in order; no end anchor follows the
twelfth capture. -/
def statFieldsChain (r2 : List Char) : Option StatGroups :=
  (parseSepInt r2).bind fun (rank, r3) =>
  (parseSepInt r3).bind fun (sid, r4) =>
  (parseSepInt r4).bind fun (gid, r5) =>
  (parseSepInt r5).bind fun (rev, r6) =>
  (parseSepInt r6).bind fun (checks, r7) =>
  (parseSepInt r7).bind fun (matchesF, r8) =>
  (parseSepInt r8).bind fun (alerts, r9) =>
  (parseSepInt r9).bind fun (ms, rA) =>
  (parseSepDec rA).bind fun (ac, rB) =>
  (parseSepDec rB).bind fun (am, rC) =>
  (parseSepDec rC).bind fun (an, rD) =>
  (parseSepInt rD).map fun (dis, _) =>
    ⟨rank, sid, gid, rev, checks, matchesF, alerts, ms, ac, am, an, dis⟩

/-- Attempt to match, at the head of the list, the part of `scanStatLine`
after its leading `.*`: `\[\d+\]:` followed by the twelve field steps. -/
def tryStatAt : List Char → Option StatGroups
  | [] => none
  | c :: r =>
    if c = '[' then
      match parseDigits r with
      | none => none
      | some (_, r1) =>
        match r1 with
        | c1 :: c2 :: r2 =>
          if c1 = ']' then if c2 = ':' then statFieldsChain r2
          else none
          else none
        | _ => none
    else none

/-- `scanStatLine`, applied with `.match`.  The leading greedy `.*` makes the
match start at the rightmost `[` from which the whole remainder of the
pattern matches. -/
def scanStatLine : List Char → Option StatGroups
  | [] => none
  | c :: r =>
    match scanStatLine r with
    | some g => some g
    | none => tryStatAt (c :: r)

/-- Numeric value of a run of decimal digit characters. -/
def digitsVal (ds : List Char) : Nat := ds.foldl (fun n c => 10 * n + (c.toNat - 48)) 0

/-- Exact value of a captured numeric field, either `<digits>` or
`<digits>.<digits>`.  The source applies Python `float` to the capture;
here the decimal text is read exactly into `ℚ`. -/
def ratOfCapture (f : List Char) : ℚ :=
  let a := f.takeWhile (fun c => !(c == '.'))
  match f.dropWhile (fun c => !(c == '.')) with
  | [] => (digitsVal a : ℚ)
  | _ :: b => (digitsVal a : ℚ) + (digitsVal b : ℚ) / ((10 : ℚ) ^ b.length)

/-- The nine numeric fields of one parsed stat row (the source stores each
in a per-signature list keyed `"rank"`, `"checks"`, ..., `"dis"`; a record
per row holds the same data, field `k` of row `i` being element `i` of the
source's list `k`). -/
structure StatVals where
  rank : ℚ
  checks : ℚ
  matchesF : ℚ
  alerts : ℚ
  ms : ℚ
  ac : ℚ
  am : ℚ
  an : ℚ
  dis : ℚ
deriving DecidableEq, Repr

/-- One parsed row together with its signature key
`"{}:{}:{}".format(gid, sid, rev)` (textual captures, colon separated). -/
structure ParsedRow where
  sig : List Char
  vals : StatVals
deriving DecidableEq, Repr

/-- Build the row record from the twelve captures, as lines 108-130 of the
source do. -/
def toParsedRow (g : StatGroups) : ParsedRow :=
  { sig := g.gid ++ ':' :: g.sid ++ ':' :: g.rev
    vals :=
      { rank := ratOfCapture g.rank
        checks := ratOfCapture g.checks
        matchesF := ratOfCapture g.matchesF
        alerts := ratOfCapture g.alerts
        ms := ratOfCapture g.ms
        ac := ratOfCapture g.ac
        am := ratOfCapture g.am
        an := ratOfCapture g.an
        dis := ratOfCapture g.dis } }

/-- Match a retained line against `scanStatLine` and decode it.  The source
also checks `len(m.groups()) == 12`, which always holds since the pattern has
exactly twelve groups. -/
def statParse (l : List Char) : Option ParsedRow := (scanStatLine l).map toParsedRow

/-- Lookup in an insertion-ordered association list (a Python `dict` whose
keys are unique). -/
def alookup {K A : Type} [DecidableEq K] : List (K × A) → K → Option A
  | [], _ => none
  | (k0, a) :: t, k => if k = k0 then some a else alookup t k

/-- `d.setdefault(k, []).append(v)` on an insertion-ordered dict of lists:
append to the existing entry, or add a new `(k, [v])` entry at the end. -/
def alistAppend {K V : Type} [DecidableEq K] : List (K × List V) → K → V → List (K × List V)
  | [], k, v => [(k, [v])]
  | (k0, vs) :: t, k, v =>
    if k0 = k then (k0, vs ++ [v]) :: t else (k0, vs) :: alistAppend t k v

/-- State of the demultiplexing loop (lines 81-99 of the source):
`logStreamList` (pids marked eligible, with duplicates) and `logStreams`
(the insertion-ordered dict of retained lines per pid). -/
structure DemuxState where
  streamList : List (List Char)
  streams : List (List Char × List (List Char))
deriving DecidableEq, Repr

/-- One iteration of the `for line in fh` loop: extract the pid, mark it
eligible if the line carries the header literal, and if the pid is (now)
eligible append the rstripped line to its stream. -/
def demuxStep (st : DemuxState) (l : List Char) : DemuxState :=
  match scanPid l with
  | none => st
  | some pid =>
    let sl := if containsHeader l then st.streamList ++ [pid] else st.streamList
    if pid ∈ sl then
      { streamList := sl, streams := alistAppend st.streams pid (rstrip l) }
    else
      { streamList := sl, streams := st.streams }

/-- The whole demultiplexing loop over the input lines. -/
def demux (input : List (List Char)) : DemuxState := input.foldl demuxStep ⟨[], []⟩

/-- Add one parsed row to the `statsTable` dict of per-signature row lists. -/
def pushRow (tbl : List (List Char × List StatVals)) (r : ParsedRow) :
    List (List Char × List StatVals) :=
  alistAppend tbl r.sig r.vals

/-- Fold a flat list of parsed rows into the `statsTable` shape. -/
def rowsFold (rows : List ParsedRow) : List (List Char × List StatVals) :=
  rows.foldl pushRow []

/-- Lines 104-130 of the source: iterate the streams dict in insertion
order, parse each retained line, and accumulate the per-signature lists. -/
def buildStats (streams : List (List Char × List (List Char))) :
    List (List Char × List StatVals) :=
  streams.foldl
    (fun tbl pr =>
      pr.2.foldl
        (fun t l =>
          match statParse l with
          | some r => pushRow t r
          | none => t)
        tbl)
    []

/-- Floor of a rational, written directly on the normalised numerator and
denominator so that it evaluates inside the kernel. -/
def qfloor (q : ℚ) : ℤ := Int.fdiv q.num (q.den : ℤ)

/-- Round-half-to-even to an integer, the convention of Python `round`
applied to an exact value. -/
def roundHalfEven (q : ℚ) : ℤ :=
  let f := qfloor q
  let r := q - (f : ℚ)
  if r < 1 / 2 then f
  else if 1 / 2 < r then f + 1
  else if f % 2 = 0 then f else f + 1

/-- `round(x, 1)` on an exact value. -/
def round1 (q : ℚ) : ℚ := ((roundHalfEven (q * 10) : ℤ) : ℚ) / 10

/-- `round(sum(l)/len(l), 1)`. -/
def mean1 (l : List ℚ) : ℚ := round1 (l.sum / (l.length : ℚ))

/-- One entry of `avgStatsTable`: each field is the rounded mean of the
corresponding per-signature list. -/
structure AvgVals where
  rank : ℚ
  checks : ℚ
  matchesF : ℚ
  alerts : ℚ
  ms : ℚ
  ac : ℚ
  am : ℚ
  an : ℚ
  dis : ℚ
deriving DecidableEq, Repr

/-- Lines 135-148 of the source, for one signature. -/
def avgOf (rows : List StatVals) : AvgVals :=
  { rank := mean1 (rows.map StatVals.rank)
    checks := mean1 (rows.map StatVals.checks)
    matchesF := mean1 (rows.map StatVals.matchesF)
    alerts := mean1 (rows.map StatVals.alerts)
    ms := mean1 (rows.map StatVals.ms)
    ac := mean1 (rows.map StatVals.ac)
    am := mean1 (rows.map StatVals.am)
    an := mean1 (rows.map StatVals.an)
    dis := mean1 (rows.map StatVals.dis) }

/-- The full `avgStatsTable`, in `statsTable` insertion order. -/
def avgTable (input : List (List Char)) : List (List Char × AvgVals) :=
  (buildStats (demux input).streams).map (fun e => (e.1, avgOf e.2))

/-- The sort key of `sorted(avgStatsTable, key=lambda name: ...["rank"])`.
The lookup always succeeds on keys of the table, so the default is never
used there. -/
def sortKey (avg : List (List Char × AvgVals)) (k : List Char) : ℚ :=
  ((alookup avg k).map AvgVals.rank).getD 0

/-- The comparison the sort uses. -/
def sigLE (avg : List (List Char × AvgVals)) (a b : List Char) : Prop :=
  sortKey avg a ≤ sortKey avg b

instance (avg : List (List Char × AvgVals)) : DecidableRel (sigLE avg) :=
  fun a b => inferInstanceAs (Decidable (sortKey avg a ≤ sortKey avg b))

/-- `sorted_keys`: the signature keys sorted (stably) by mean rank.  Python
`sorted` and `List.insertionSort` are both stable, so on equal inputs they
produce the same sequence. -/
def sortedSigs (input : List (List Char)) : List (List Char) :=
  List.insertionSort (sigLE (avgTable input)) ((avgTable input).map Prod.fst)

/-- The column widths of `OUTPUT_FORMAT`. -/
def widths : List Nat := [6, 8, 3, 3, 11, 11, 9, 19, 9, 9, 12, 9]

/-- `OUTPUT_HEADINGS`. -/
def headings : List (List Char) :=
  [("Num").toList, ("SID").toList, ("GID").toList, ("Rev").toList,
   ("Checks").toList, ("Matches").toList, ("Alerts").toList, ("Microsecs").toList,
   ("Avg/Check").toList, ("Avg/Match").toList, ("Avg/Nonmatch").toList, ("dis").toList]

/-- Right-alignment in a fixed width, `"{:>w}"`: pad on the left with
spaces, never truncate. -/
def padLeft (w : Nat) (s : List Char) : List Char := List.replicate (w - s.length) ' ' ++ s

/-- `OUTPUT_FORMAT.format(...)`: each of the twelve fields is preceded by a
single space and right-aligned in its column width. -/
def fmtRow (cells : List (List Char)) : List Char :=
  ((widths.zip cells).map (fun wc => ' ' :: padLeft wc.1 wc.2)).flatten

/-- Python `str` of a nonnegative one-decimal float value, as produced for
the rounded averages: integer part, a dot, one fractional digit. -/
def renderQ1 (q : ℚ) : List Char :=
  (toString (Int.toNat (qfloor q))).toList
    ++ '.' :: (toString (Int.toNat (qfloor (q * 10)) % 10)).toList

/-- `OUTPUT_HEADER.format(len(logStreams))`. -/
def outputHeaderStr (n : Nat) : List Char :=
  ("Average Rule Profile Statistics (across ").toList ++ (toString n).toList
    ++ (" processes) (all rules)").toList

/-- `k.split(":")`. -/
def splitColon : List Char → List (List Char)
  | [] => [[]]
  | ':' :: t => [] :: splitColon t
  | c :: t =>
    match splitColon t with
    | [] => [[c]]
    | h :: r => (c :: h) :: r

/-- One data row of the report: rank and the averaged fields are rendered
floats, while sid, gid, rev are the pieces of the signature key. -/
def dataRow (avg : List (List Char × AvgVals)) (k : List Char) : List Char :=
  let parts := splitColon k
  let gid := parts.getD 0 []
  let sid := parts.getD 1 []
  let rev := parts.getD 2 []
  let v := (alookup avg k).getD ⟨0, 0, 0, 0, 0, 0, 0, 0, 0⟩
  fmtRow [renderQ1 v.rank, sid, gid, rev, renderQ1 v.checks, renderQ1 v.matchesF,
    renderQ1 v.alerts, renderQ1 v.ms, renderQ1 v.ac, renderQ1 v.am, renderQ1 v.an,
    renderQ1 v.dis]

/-- The sequence of lines printed to standard output by lines 150-168 of the
source: `print("", x)` emits a space, the separator, then `x`. -/
def reportOutput (input : List (List Char)) : List (List Char) :=
  (' ' :: outputHeaderStr (demux input).streams.length)
    :: (' ' :: List.replicate (outputHeaderStr (demux input).streams.length).length '=')
    :: fmtRow headings
    :: fmtRow (headings.map (fun h => List.replicate h.length '='))
    :: (sortedSigs input).map (dataRow (avgTable input))

/-- The whole of `parseMessages fn` for a given filename: `openResult` is
`some lines` when `open(fn)` succeeds and `none` when it raises.  In the
failure case the `except` branch only prints `"Error opening <fn>"` to
standard error and leaves the local `fh` unassigned, so the subsequent
`for line in fh` raises `UnboundLocalError` and nothing is printed to
standard output; the error outcome models that unhandled exception.  The
first component is the standard-error output, the second the standard
output (or the terminating exception). -/
def parseMessagesRun (fn : String) (openResult : Option (List (List Char))) :
    List String × Except String (List (List Char)) :=
  match openResult with
  | some lines => ([], Except.ok (reportOutput lines))
  | none =>
    (["Error opening " ++ fn],
     Except.error ("UnboundLocalError: local variable referenced before assignment"))

/-- All lines of the input carrying pid `p`, in order (specification-side:
the complete per-process stream). -/
def linesOfPid (p : List Char) (input : List (List Char)) : List (List Char) :=
  input.filter (fun l => decide (scanPid l = some p))

/-- The pids of the header-bearing lines, in input order, with duplicates:
exactly the appends performed on `logStreamList`. -/
def headerPids (input : List (List Char)) : List (List Char) :=
  input.filterMap (fun l =>
    match scanPid l with
    | some p => if containsHeader l then some p else none
    | none => none)

/-- The lines the loop retains for pid `p`: its lines from the first
header-bearing one onward, rstripped. -/
def keptLines (p : List Char) (input : List (List Char)) : List (List Char) :=
  ((linesOfPid p input).dropWhile (fun l => !containsHeader l)).map rstrip

/-- First-occurrence deduplication, the key order of an insertion-ordered
dict. -/
def firstDedup {α : Type} [DecidableEq α] : List α → List α
  | [] => []
  | a :: t => a :: firstDedup (t.filter (fun b => decide (¬ b = a)))
termination_by l => l.length
decreasing_by
  simp only [List.length_cons]
  have := List.length_filter_le (fun b => decide (¬ b = a)) t
  omega

/-- Concrete input for claim C1: pid 7 has one line before its header line. -/
def exC1 : List (List Char) :=
  [("[7]: alpha").toList, ("[7]: Rule Profile Statistics (all rules)").toList]

/-- Concrete input for claim C7: pid 9 emits a well-formed stat row but
never a header line; pid 1 has a proper table. -/
def exC7 : List (List Char) :=
  [("[9]: 1 500 1 0 3 3 3 3 1.0 1.0 1.0 0").toList,
   ("[1]: Rule Profile Statistics (all rules)").toList,
   ("[1]: 1 100 1 0 3 3 3 3 1.0 1.0 1.0 0").toList]

/-- All parsed rows, in the traversal order of the second loop: streams in
dict insertion order, lines in order, non-matching lines skipped. -/
def allRows (input : List (List Char)) : List ParsedRow :=
  (demux input).streams.flatMap (fun pr => pr.2.filterMap statParse)

/-- Interleaving A for claim C6: pid 1's table first, then pid 2's; both
rows have mean rank 1, so the two signatures tie. -/
def exC6a : List (List Char) := [
  ("[1]: Rule Profile Statistics (all rules)").toList,
  ("[1]: 1 100 1 0 3 3 3 3 1.0 1.0 1.0 0").toList,
  ("[2]: Rule Profile Statistics (all rules)").toList,
  ("[2]: 1 200 1 0 3 3 3 3 1.0 1.0 1.0 0").toList]

/-- Interleaving B for claim C6: the same two per-process streams, pid 2
first. -/
def exC6b : List (List Char) := [
  ("[2]: Rule Profile Statistics (all rules)").toList,
  ("[2]: 1 200 1 0 3 3 3 3 1.0 1.0 1.0 0").toList,
  ("[1]: Rule Profile Statistics (all rules)").toList,
  ("[1]: 1 100 1 0 3 3 3 3 1.0 1.0 1.0 0").toList]

/-- Interleaving A for the claim C6 witness: ranks 1 and 2 are distinct. -/
def exC6c : List (List Char) := [
  ("[1]: Rule Profile Statistics (all rules)").toList,
  ("[1]: 1 100 1 0 3 3 3 3 1.0 1.0 1.0 0").toList,
  ("[2]: Rule Profile Statistics (all rules)").toList,
  ("[2]: 2 200 1 0 3 3 3 3 1.0 1.0 1.0 0").toList]

/-- Interleaving B for the claim C6 witness. -/
def exC6d : List (List Char) := [
  ("[2]: Rule Profile Statistics (all rules)").toList,
  ("[2]: 2 200 1 0 3 3 3 3 1.0 1.0 1.0 0").toList,
  ("[1]: Rule Profile Statistics (all rules)").toList,
  ("[1]: 1 100 1 0 3 3 3 3 1.0 1.0 1.0 0").toList]

/-- Does the head of the list (if any) fail the predicate?  Used to state
where a maximal run must stop. -/
def headNot (p : Char → Bool) : List Char → Prop
  | [] => True
  | c :: _ => p c = false

/-- A nonempty run of space characters (`[ ]+`). -/
def spaceRun (s : List Char) : Prop := ¬ s = [] ∧ ∀ c ∈ s, c = ' '

/-- A nonempty run of digit characters (`\d+`). -/
def intShape (f : List Char) : Prop := ¬ f = [] ∧ ∀ c ∈ f, c.isDigit = true

/-- The shape `\d+\.\d+` of a decimal field. -/
def decShape (f : List Char) : Prop :=
  ∃ a b, f = a ++ '.' :: b ∧ intShape a ∧ intShape b

/-- The shape of the text following the bracketed identifier of a stat row:
twelve fields, each preceded by a run of spaces — eight integers, three
decimals, one integer, in that order — followed by arbitrary trailing
content.  This is the claim-side decomposition the amended claim C3 talks
about. -/
def statTail (t : List Char) : Prop :=
  ∃ s1 f1 s2 f2 s3 f3 s4 f4 s5 f5 s6 f6 s7 f7 s8 f8 s9 f9 s10 f10 s11 f11 s12 f12
    rest : List Char,
    t = s1 ++ (f1 ++ (s2 ++ (f2 ++ (s3 ++ (f3 ++ (s4 ++ (f4 ++ (s5 ++ (f5 ++
        (s6 ++ (f6 ++ (s7 ++ (f7 ++ (s8 ++ (f8 ++ (s9 ++ (f9 ++ (s10 ++ (f10 ++
        (s11 ++ (f11 ++ (s12 ++ (f12 ++ rest))))))))))))))))))))))) ∧
    spaceRun s1 ∧ spaceRun s2 ∧ spaceRun s3 ∧ spaceRun s4 ∧ spaceRun s5 ∧
    spaceRun s6 ∧ spaceRun s7 ∧ spaceRun s8 ∧ spaceRun s9 ∧ spaceRun s10 ∧
    spaceRun s11 ∧ spaceRun s12 ∧
    intShape f1 ∧ intShape f2 ∧ intShape f3 ∧ intShape f4 ∧ intShape f5 ∧
    intShape f6 ∧ intShape f7 ∧ intShape f8 ∧
    decShape f9 ∧ decShape f10 ∧ decShape f11 ∧ intShape f12

/-- A line carries a stat row: after some prefix there is a bracketed
identifier token followed by a `statTail`. -/
def hasStatRow (l : List Char) : Prop :=
  ∃ pre ds t, l = pre ++ '[' :: (ds ++ ']' :: ':' :: t) ∧ intShape ds ∧ statTail t

/-- Shape requirement of one field: integer or decimal. -/
def fieldShapeOK : Bool → List Char → Prop
  | true, f => intShape f
  | false, f => decShape f

/-- The space-separated field sequence of the given kinds, as a prefix of
the text; anything may follow the last field. -/
def fieldsShape : List Bool → List Char → Prop
  | [], _ => True
  | k :: ks, t =>
    ∃ s f t2, t = s ++ (f ++ t2) ∧ spaceRun s ∧ fieldShapeOK k f ∧ fieldsShape ks t2

/-- The field kinds of a stat row: eight integers, three decimals, one
integer. -/
def statKinds : List Bool :=
  [true, true, true, true, true, true, true, true, false, false, false, true]

/-- Parse one field of the given kind. -/
def parseFieldK : Bool → List Char → Option (List Char × List Char)
  | true, cs => parseSepInt cs
  | false, cs => parseSepDec cs

/-- Parse a sequence of fields of the given kinds, returning the remainder. -/
def parseFieldsK : List Bool → List Char → Option (List Char)
  | [], cs => some cs
  | k :: ks, cs =>
    match parseFieldK k cs with
    | none => none
    | some (_, r) => parseFieldsK ks r

/-- Concrete line for claim C3: thirteen whitespace-separated fields follow
the identifier `[1234]:` — the twelve of a stat row and one extra (`77`). -/
def exC3 : List Char :=
  ("May  1 12:00:01 ids snort[1234]: 3 101 1 2 50 10 2 1200 24.0 120.0 22.5 0 77").toList

/-! ### Association-list lemmas -/

theorem alookup_alistAppend {K V : Type} [DecidableEq K] (t : List (K × List V)) (k : K)
    (v : V) (k' : K) :
    alookup (alistAppend t k v) k' =
      if k' = k then some (((alookup t k).getD []) ++ [v]) else alookup t k' := by
  induction t with
  | nil =>
    by_cases h : k' = k <;> simp [alistAppend, alookup, h]
  | cons e t ih =>
    obtain ⟨k0, vs⟩ := e
    by_cases h0 : k0 = k
    · subst h0
      by_cases h : k' = k0 <;> simp [alistAppend, alookup, h]
    · by_cases h : k' = k0
      · subst h
        simp [alistAppend, alookup, h0, Ne.symm h0]
      · simp [alistAppend, alookup, h0, h, ih, show ¬ k = k0 from fun hh => h0 hh.symm]

theorem map_fst_alistAppend {K V : Type} [DecidableEq K] (t : List (K × List V)) (k : K)
    (v : V) :
    (alistAppend t k v).map Prod.fst =
      if k ∈ t.map Prod.fst then t.map Prod.fst else t.map Prod.fst ++ [k] := by
  induction t with
  | nil => simp [alistAppend]
  | cons e t ih =>
    obtain ⟨k0, vs⟩ := e
    by_cases h0 : k0 = k
    · subst h0
      simp [alistAppend]
    · have hkk : ¬ k = k0 := fun hh => h0 hh.symm
      simp only [alistAppend, if_neg h0, List.map_cons]
      rw [ih]
      by_cases hm : k ∈ t.map Prod.fst
      · simp [hm, List.mem_cons]
      · simp [hm, List.mem_cons, hkk]

theorem alookup_eq_none_iff {K A : Type} [DecidableEq K] (t : List (K × A)) (k : K) :
    alookup t k = none ↔ k ∉ t.map Prod.fst := by
  induction t with
  | nil => simp [alookup]
  | cons e t ih =>
    obtain ⟨k0, a⟩ := e
    by_cases h : k = k0 <;> simp [alookup, h, ih]

theorem alookup_append {K A : Type} [DecidableEq K] (t₁ t₂ : List (K × A)) (k : K) :
    alookup (t₁ ++ t₂) k =
      match alookup t₁ k with
      | some a => some a
      | none => alookup t₂ k := by
  induction t₁ with
  | nil => simp [alookup]
  | cons e t ih =>
    obtain ⟨k0, a⟩ := e
    by_cases h : k = k0 <;> simp [alookup, h, ih]

theorem alookup_map_snd {K A B : Type} [DecidableEq K] (t : List (K × A)) (g : A → B)
    (k : K) :
    alookup (t.map (fun e => (e.1, g e.2))) k = (alookup t k).map g := by
  induction t with
  | nil => simp [alookup]
  | cons e t ih =>
    obtain ⟨k0, a⟩ := e
    by_cases h : k = k0 <;> simp [alookup, h, ih]

/-! ### firstDedup lemmas -/

theorem mem_firstDedup {α : Type} [DecidableEq α] (l : List α) (a : α) :
    a ∈ firstDedup l ↔ a ∈ l := by
  induction l using firstDedup.induct with
  | case1 => simp [firstDedup]
  | case2 b t ih =>
    rw [firstDedup]
    by_cases h : a = b
    · simp [h]
    · simp only [List.mem_cons, h, false_or, ih, List.mem_filter]
      simp [h]

theorem firstDedup_nodup {α : Type} [DecidableEq α] (l : List α) :
    (firstDedup l).Nodup := by
  induction l using firstDedup.induct with
  | case1 => simp [firstDedup]
  | case2 b t ih =>
    rw [firstDedup]
    refine List.nodup_cons.2 ⟨?_, ih⟩
    rw [mem_firstDedup]
    intro hmem
    exact (by simpa using (List.mem_filter.1 hmem).2 : ¬ b = b) rfl

theorem firstDedup_append_singleton {α : Type} [DecidableEq α] (l : List α) (a : α) :
    firstDedup (l ++ [a]) = if a ∈ l then firstDedup l else firstDedup l ++ [a] := by
  induction l using firstDedup.induct with
  | case1 => simp [firstDedup]
  | case2 b t ih =>
    rw [List.cons_append, firstDedup, firstDedup, List.filter_append]
    by_cases hab : a = b
    · subst hab
      simp
    · have : List.filter (fun x => decide (¬ x = b)) [a] = [a] := by simp [hab]
      rw [this, ih]
      by_cases hat : a ∈ t
      · have h1 : a ∈ List.filter (fun x => decide (¬ x = b)) t := by
          simp [List.mem_filter, hat, hab]
        simp [h1, hat, hab]
      · have h1 : a ∉ List.filter (fun x => decide (¬ x = b)) t := by
          intro h
          exact hat (List.mem_filter.1 h).1

        simp [h1, hat, hab]

/-! ### Characterisation of the demultiplexing loop -/

theorem demux_append_singleton (xs : List (List Char)) (x : List Char) :
    demux (xs ++ [x]) = demuxStep (demux xs) x := by
  simp [demux, List.foldl_append]

theorem headerPids_append_singleton (xs : List (List Char)) (x : List Char) :
    headerPids (xs ++ [x]) = headerPids xs ++ headerPids [x] := by
  simp [headerPids, List.filterMap_append]

theorem headerPids_singleton_of_header (x : List Char) (q : List Char)
    (hpid : scanPid x = some q) (hh : containsHeader x = true) :
    headerPids [x] = [q] := by
  simp [headerPids, hpid, hh]

theorem headerPids_singleton_of_noheader (x : List Char) (q : List Char)
    (hpid : scanPid x = some q) (hh : containsHeader x = false) :
    headerPids [x] = [] := by
  simp [headerPids, hpid, hh]

theorem headerPids_singleton_of_nopid (x : List Char) (hpid : scanPid x = none) :
    headerPids [x] = [] := by
  simp [headerPids, hpid]

theorem linesOfPid_append_singleton (p : List Char) (xs : List (List Char)) (x : List Char) :
    linesOfPid p (xs ++ [x]) =
      linesOfPid p xs ++ (if scanPid x = some p then [x] else []) := by
  by_cases h : scanPid x = some p <;>
    simp [linesOfPid, List.filter_append, List.filter, h]

theorem keptLines_append_not_pid (p : List Char) (xs : List (List Char)) (x : List Char)
    (h : ¬ scanPid x = some p) : keptLines p (xs ++ [x]) = keptLines p xs := by
  simp [keptLines, linesOfPid_append_singleton, h]

theorem keptLines_append_pid_header (q : List Char) (xs : List (List Char)) (x : List Char)
    (hpid : scanPid x = some q) (hh : containsHeader x = true) :
    keptLines q (xs ++ [x]) = keptLines q xs ++ [rstrip x] := by
  simp only [keptLines, linesOfPid_append_singleton, hpid, if_pos rfl,
    List.dropWhile_append]
  by_cases hk : List.dropWhile (fun l => !containsHeader l) (linesOfPid q xs) = []
  · simp [hk, List.dropWhile, hh]
  · simp [hk, List.isEmpty_iff, hh]

theorem keptLines_append_pid_noheader (q : List Char) (xs : List (List Char)) (x : List Char)
    (hpid : scanPid x = some q) (hh : containsHeader x = false) :
    keptLines q (xs ++ [x]) =
      (if keptLines q xs = [] then [] else keptLines q xs ++ [rstrip x]) := by
  simp only [keptLines, linesOfPid_append_singleton, hpid, if_pos rfl,
    List.dropWhile_append]
  by_cases hk : List.dropWhile (fun l => !containsHeader l) (linesOfPid q xs) = []
  · simp [hk, List.dropWhile, hh]
  · simp [hk, List.isEmpty_iff, hh]

theorem mem_headerPids_iff (input : List (List Char)) (p : List Char) :
    p ∈ headerPids input ↔ ∃ l ∈ input, scanPid l = some p ∧ containsHeader l = true := by
  rw [headerPids, List.mem_filterMap]
  refine exists_congr fun l => and_congr_right fun _ => ?_
  cases hs : scanPid l with
  | none => simp [hs]
  | some q =>
    cases hh : containsHeader l with
    | false => simp [hh]
    | true => simp [hh, eq_comm]

theorem keptLines_ne_nil_iff (p : List Char) (input : List (List Char)) :
    keptLines p input ≠ [] ↔ ∃ l ∈ input, scanPid l = some p ∧ containsHeader l = true := by
  rw [keptLines]
  rw [ne_eq, List.map_eq_nil_iff, List.dropWhile_eq_nil_iff]
  push_neg
  constructor
  · rintro ⟨x, hx, hb⟩
    rcases List.mem_filter.1 hx with ⟨hxin, hxp⟩
    exact ⟨x, hxin, by simpa using hxp, by simpa using hb⟩
  · rintro ⟨l, hl, hp, hh⟩
    refine ⟨l, List.mem_filter.2 ⟨hl, by simpa using hp⟩, by simp [hh]⟩

theorem mem_headerPids_iff_keptLines_ne (p : List Char) (input : List (List Char)) :
    p ∈ headerPids input ↔ keptLines p input ≠ [] := by
  rw [mem_headerPids_iff, keptLines_ne_nil_iff]

/-- The loop invariant of `parseMessages`' first pass: `logStreamList` holds
the pids of the header lines in order, the dict keys are those pids
first-occurrence-deduplicated, and each pid's entry holds exactly its lines
from its first header line onward, rstripped. -/
theorem demux_spec (input : List (List Char)) :
    (demux input).streamList = headerPids input ∧
    (demux input).streams.map Prod.fst = firstDedup (headerPids input) ∧
    ∀ p, alookup (demux input).streams p =
      (if keptLines p input = [] then none else some (keptLines p input)) := by
  induction input using List.reverseRecOn with
  | nil =>
    refine ⟨rfl, ?_, fun p => ?_⟩
    · simp [demux, headerPids, firstDedup]
    · simp [demux, keptLines, linesOfPid, alookup]
  | append_singleton xs x ih =>
    obtain ⟨h1, h2, h3⟩ := ih
    rw [demux_append_singleton, headerPids_append_singleton]
    cases hpid : scanPid x with
    | none =>
      rw [headerPids_singleton_of_nopid x hpid, List.append_nil]
      have hstep : demuxStep (demux xs) x = demux xs := by
        simp [demuxStep, hpid]
      rw [hstep]
      refine ⟨h1, h2, fun p => ?_⟩
      rw [keptLines_append_not_pid p xs x (by simp [hpid])]
      exact h3 p
    | some q =>
      cases hh : containsHeader x with
      | true =>
        rw [headerPids_singleton_of_header x q hpid hh]
        have hstep : demuxStep (demux xs) x =
            ⟨(demux xs).streamList ++ [q],
             alistAppend (demux xs).streams q (rstrip x)⟩ := by
          simp [demuxStep, hpid, hh]
        rw [hstep]
        refine ⟨by simpa using congrArg (fun l => l ++ [q]) h1, ?_, fun p => ?_⟩
        · show (alistAppend (demux xs).streams q (rstrip x)).map Prod.fst = _
          rw [map_fst_alistAppend, h2, firstDedup_append_singleton]
          by_cases hq : q ∈ headerPids xs
          · simp [hq, mem_firstDedup]
          · simp [hq, mem_firstDedup]
        · show alookup (alistAppend (demux xs).streams q (rstrip x)) p = _
          rw [alookup_alistAppend]
          by_cases hpq : p = q
          · subst hpq
            rw [if_pos rfl, h3 p, keptLines_append_pid_header p xs x hpid hh]
            by_cases hk : keptLines p xs = []
            · simp [hk]
            · simp [hk]
          · rw [if_neg hpq, h3 p,
              keptLines_append_not_pid p xs x (by simp [hpid, hpq, Ne.symm hpq])]
      | false =>
        rw [headerPids_singleton_of_noheader x q hpid hh, List.append_nil]
        by_cases hq : q ∈ (demux xs).streamList
        · have hstep : demuxStep (demux xs) x =
              ⟨(demux xs).streamList,
               alistAppend (demux xs).streams q (rstrip x)⟩ := by
            simp [demuxStep, hpid, hh, hq]
          rw [hstep]
          have hqh : q ∈ headerPids xs := h1 ▸ hq
          have hkq : keptLines q xs ≠ [] := (mem_headerPids_iff_keptLines_ne q xs).1 hqh
          refine ⟨h1, ?_, fun p => ?_⟩
          · show (alistAppend (demux xs).streams q (rstrip x)).map Prod.fst = _
            rw [map_fst_alistAppend, h2]
            have : q ∈ firstDedup (headerPids xs) := (mem_firstDedup _ q).2 hqh
            simp [this]
          · show alookup (alistAppend (demux xs).streams q (rstrip x)) p = _
            rw [alookup_alistAppend]
            by_cases hpq : p = q
            · subst hpq
              rw [if_pos rfl, h3 p, keptLines_append_pid_noheader p xs x hpid hh]
              simp [hkq]
            · rw [if_neg hpq, h3 p,
                keptLines_append_not_pid p xs x (by simp [hpid, hpq, Ne.symm hpq])]
        · have hstep : demuxStep (demux xs) x = demux xs := by
            simp [demuxStep, hpid, hh, hq]
          rw [hstep]
          have hqh : ¬ q ∈ headerPids xs := h1 ▸ hq
          have hkq : keptLines q xs = [] := by
            by_contra hne
            exact hqh ((mem_headerPids_iff_keptLines_ne q xs).2 hne)
          refine ⟨h1, h2, fun p => ?_⟩
          by_cases hpq : p = q
          · subst hpq
            rw [h3 p, keptLines_append_pid_noheader p xs x hpid hh]
            simp [hkq]
          · rw [h3 p,
              keptLines_append_not_pid p xs x (by simp [hpid, hpq, Ne.symm hpq])]

/-! ### Claims C1, C7, C9: retention, eligibility filtering, process count -/

/-- Claim C1, counterexample: pid `7` becomes eligible on its second line;
the complete ordered set of its lines from first occurrence onward has two
lines, but the loop retains only the header line itself, because lines seen
before the header append is reached are never buffered. -/
theorem claim_C1_counterexample :
    (("7").toList) ∈ (demux exC1).streamList ∧
    linesOfPid (("7").toList) exC1 =
      [("[7]: alpha").toList, ("[7]: Rule Profile Statistics (all rules)").toList] ∧
    alookup (demux exC1).streams (("7").toList) =
      some [("[7]: Rule Profile Statistics (all rules)").toList] ∧
    ¬ alookup (demux exC1).streams (("7").toList) = some (linesOfPid (("7").toList) exC1) := by
  decide

/-- Claim C1 (amended): for every eligible process identifier, the retained
line sequence is the ordered subsequence of its lines starting at its first
header-bearing line (rstripped); lines seen before that header line are
dropped, not retained. -/
theorem claim_C1_amended (input : List (List Char)) (p : List Char)
    (h : p ∈ (demux input).streamList) :
    alookup (demux input).streams p = some (keptLines p input) := by
  obtain ⟨h1, _, h3⟩ := demux_spec input
  have hne : keptLines p input ≠ [] :=
    (mem_headerPids_iff_keptLines_ne p input).1 (h1 ▸ h)
  rw [h3 p, if_neg hne]

/-- Witness for the amended claim C1 at the concrete input `exC1`. -/
theorem claim_C1_witness :
    alookup (demux exC1).streams (("7").toList) = some (keptLines (("7").toList) exC1) :=
  claim_C1_amended exC1 (("7").toList) (by decide)

/-- If every line of pid `p` lacks the header literal, each of its lines is
a no-op for the loop state, provided `p` is not yet marked eligible. -/
theorem demux_filter_inert (p : List Char) :
    ∀ (input : List (List Char)),
      (∀ l ∈ input, scanPid l = some p → containsHeader l = false) →
      ∀ st : DemuxState, p ∉ st.streamList →
        input.foldl demuxStep st =
          (input.filter (fun l => !(decide (scanPid l = some p)))).foldl demuxStep st := by
  intro input
  induction input with
  | nil => intro _ st _; rfl
  | cons l t iht =>
    intro h st hst
    have ht : ∀ l' ∈ t, scanPid l' = some p → containsHeader l' = false :=
      fun l' hl' => h l' (List.mem_cons_of_mem _ hl')
    by_cases hcase : scanPid l = some p
    · have hh : containsHeader l = false := h l (List.mem_cons_self _ _) hcase
      have hstep : demuxStep st l = st := by
        simp [demuxStep, hcase, hh, hst]
      have hfil : (l :: t).filter (fun l' => !(decide (scanPid l' = some p))) =
          t.filter (fun l' => !(decide (scanPid l' = some p))) := by
        simp [List.filter_cons, hcase]
      rw [hfil, List.foldl_cons, hstep]
      exact iht ht st hst
    · have hst' : p ∉ (demuxStep st l).streamList := by
        cases hsp : scanPid l with
        | none => simpa [demuxStep, hsp] using hst
        | some q =>
          have hqp : ¬ p = q := fun e => hcase (by rw [hsp, e])
          have hsl : p ∉ (if containsHeader l then st.streamList ++ [q]
              else st.streamList) := by
            by_cases hhl : containsHeader l <;> simp [hhl, hst, hqp]
          by_cases hmem : q ∈ (if containsHeader l then st.streamList ++ [q]
              else st.streamList) <;>
            simp [demuxStep, hsp, hmem, hsl]
      have hfil : (l :: t).filter (fun l' => !(decide (scanPid l' = some p))) =
          l :: t.filter (fun l' => !(decide (scanPid l' = some p))) := by
        simp [List.filter_cons, hcase]
      rw [hfil, List.foldl_cons, List.foldl_cons]
      exact iht ht (demuxStep st l) hst'

/-- The report depends on the input only through the demultiplexer state. -/
theorem reportOutput_congr (input input' : List (List Char))
    (h : demux input = demux input') : reportOutput input = reportOutput input' := by
  unfold reportOutput sortedSigs avgTable
  rw [h]

/-- Claim C7: a process identifier none of whose lines carries the header
literal is never marked eligible: it has no entry in the streams dict, it is
not among the dict keys (so it is not counted), and deleting all of its
lines from the input leaves the whole printed report unchanged — it
contributes no stat rows and no data rows. -/
theorem claim_C7 (input : List (List Char)) (p : List Char)
    (h : ∀ l ∈ input, scanPid l = some p → containsHeader l = false) :
    alookup (demux input).streams p = none ∧
    p ∉ (demux input).streams.map Prod.fst ∧
    reportOutput input =
      reportOutput (input.filter (fun l => !(decide (scanPid l = some p)))) := by
  obtain ⟨h1, h2, h3⟩ := demux_spec input
  have hkept : keptLines p input = [] := by
    by_contra hne
    obtain ⟨l, hl, hp, hh⟩ := (keptLines_ne_nil_iff p input).1 hne
    rw [h l hl hp] at hh
    exact Bool.false_ne_true hh
  have hnone : alookup (demux input).streams p = none := by
    rw [h3 p, if_pos hkept]
  refine ⟨hnone, (alookup_eq_none_iff _ p).1 hnone, ?_⟩
  apply reportOutput_congr
  show input.foldl demuxStep ⟨[], []⟩ = _
  exact demux_filter_inert p input h ⟨[], []⟩ (by simp)

/-- Witness for claim C7 at the concrete input `exC7`. -/
theorem claim_C7_witness :
    alookup (demux exC7).streams (("9").toList) = none ∧
    (("9").toList) ∉ (demux exC7).streams.map Prod.fst ∧
    reportOutput exC7 =
      reportOutput (exC7.filter (fun l => !(decide (scanPid l = some (("9").toList))))) :=
  claim_C7 exC7 (("9").toList) (by decide)

/-- The first-dedup of a list carries the same elements as the list. -/
theorem toFinset_firstDedup {α : Type} [DecidableEq α] (l : List α) :
    (firstDedup l).toFinset = l.toFinset := by
  ext a
  simp [List.mem_toFinset, mem_firstDedup]

/-- Claim C9: the process count printed in the report header,
`len(logStreams)`, equals the number of distinct eligible process
identifiers; in particular a pid whose header literal appears on several
lines is counted exactly once. -/
theorem claim_C9 (input : List (List Char)) :
    (demux input).streams.length = (headerPids input).toFinset.card := by
  obtain ⟨_, h2, _⟩ := demux_spec input
  have hl : (demux input).streams.length =
      ((demux input).streams.map Prod.fst).length := (List.length_map _ _).symm
  rw [hl, h2, ← toFinset_firstDedup,
    List.toFinset_card_of_nodup (firstDedup_nodup _)]

/-! ### Characterisation of the statistics table -/

theorem lines_foldl_eq_filterMap (ls : List (List Char)) :
    ∀ t0 : List (List Char × List StatVals),
      ls.foldl
        (fun t l =>
          match statParse l with
          | some r => pushRow t r
          | none => t)
        t0 = (ls.filterMap statParse).foldl pushRow t0 := by
  induction ls with
  | nil => intro t0; rfl
  | cons l t ih =>
    intro t0
    rw [List.foldl_cons, List.filterMap_cons]
    cases h : statParse l with
    | none => simp only [h]; exact ih t0
    | some r => simp only [h, List.foldl_cons]; exact ih (pushRow t0 r)

theorem foldl_flatMap_pushRow (xs : List (List Char × List (List Char))) :
    ∀ t0 : List (List Char × List StatVals),
      (xs.flatMap (fun pr => pr.2.filterMap statParse)).foldl pushRow t0 =
        xs.foldl (fun tbl pr => (pr.2.filterMap statParse).foldl pushRow tbl) t0 := by
  induction xs with
  | nil => intro t0; rfl
  | cons x t ih =>
    intro t0
    rw [List.flatMap_cons, List.foldl_append, List.foldl_cons]
    exact ih _

/-- The nested accumulation loop is the flat fold of `pushRow` over all
parsed rows in traversal order. -/
theorem buildStats_eq_rowsFold (input : List (List Char)) :
    buildStats (demux input).streams = rowsFold (allRows input) := by
  rw [buildStats, allRows, rowsFold, foldl_flatMap_pushRow]
  congr 1
  funext tbl pr
  exact lines_foldl_eq_filterMap pr.2 tbl

theorem rowsFold_append_singleton (rows : List ParsedRow) (r : ParsedRow) :
    rowsFold (rows ++ [r]) = pushRow (rowsFold rows) r := by
  simp [rowsFold, List.foldl_append]

/-- The per-signature list built by the loop is exactly the filter of the
traversal-order row list by that signature, with the values projected out. -/
theorem alookup_rowsFold (rows : List ParsedRow) (s : List Char) :
    alookup (rowsFold rows) s =
      (if rows.filter (fun r => decide (r.sig = s)) = [] then none
       else some ((rows.filter (fun r => decide (r.sig = s))).map ParsedRow.vals)) := by
  induction rows using List.reverseRecOn with
  | nil => simp [rowsFold, alookup]
  | append_singleton rows r ih =>
    rw [rowsFold_append_singleton, pushRow, alookup_alistAppend, List.filter_append]
    by_cases hs : s = r.sig
    · subst hs
      have hfil : List.filter (fun q => decide (q.sig = r.sig)) [r] = [r] := by
        simp
      rw [if_pos rfl, hfil, ih]
      by_cases he : rows.filter (fun q => decide (q.sig = r.sig)) = [] <;>
        simp [he]
    · have hfil : List.filter (fun q => decide (q.sig = s)) [r] = [] := by
        simp [Ne.symm hs]
      rw [if_neg hs, hfil, List.append_nil]
      exact ih

theorem mem_keys_rowsFold (rows : List ParsedRow) (s : List Char) :
    s ∈ (rowsFold rows).map Prod.fst ↔ s ∈ rows.map ParsedRow.sig := by
  have h1 : ¬ alookup (rowsFold rows) s = none ↔ s ∈ (rowsFold rows).map Prod.fst := by
    rw [alookup_eq_none_iff, not_not]
  rw [← h1, alookup_rowsFold]
  constructor
  · intro hmem
    by_cases he : rows.filter (fun q => decide (q.sig = s)) = []
    · rw [if_pos he] at hmem
      exact absurd rfl hmem
    · obtain ⟨r, hr⟩ := List.exists_mem_of_ne_nil _ he
      rcases List.mem_filter.1 hr with ⟨hrin, hrs⟩
      exact List.mem_map.2 ⟨r, hrin, by simpa using hrs⟩
  · intro hmem
    obtain ⟨r, hrin, hrs⟩ := List.mem_map.1 hmem
    have hfil : r ∈ rows.filter (fun q => decide (q.sig = s)) :=
      List.mem_filter.2 ⟨hrin, by simpa using hrs⟩
    have hne : rows.filter (fun q => decide (q.sig = s)) ≠ [] :=
      List.ne_nil_of_mem hfil
    rw [if_neg hne]
    simp

theorem map_fst_rowsFold (rows : List ParsedRow) :
    (rowsFold rows).map Prod.fst = firstDedup (rows.map ParsedRow.sig) := by
  induction rows using List.reverseRecOn with
  | nil => simp [rowsFold, firstDedup]
  | append_singleton rows r ih =>
    rw [rowsFold_append_singleton, pushRow, map_fst_alistAppend, ih, List.map_append,
      List.map_singleton, firstDedup_append_singleton]
    by_cases hmem : r.sig ∈ rows.map ParsedRow.sig
    · rw [if_pos ((mem_firstDedup _ _).2 hmem), if_pos hmem]
    · rw [if_neg (fun hc => hmem ((mem_firstDedup _ _).1 hc)), if_neg hmem]

theorem map_fst_avgTable (input : List (List Char)) :
    (avgTable input).map Prod.fst = firstDedup ((allRows input).map ParsedRow.sig) := by
  rw [avgTable, buildStats_eq_rowsFold, ← map_fst_rowsFold, List.map_map]
  rfl

/-! ### Claim C5: report ordering and completeness -/

/-- Claim C5: the data rows of the report are sorted so that the sequence of
mean-rank sort keys is non-decreasing, the printed signature keys are
pairwise distinct, and a signature appears in the report exactly when it was
observed in some parsed row — so every distinct observed signature appears
exactly once. -/
theorem claim_C5 (input : List (List Char)) :
    List.Sorted (· ≤ ·) ((sortedSigs input).map (sortKey (avgTable input))) ∧
    (sortedSigs input).Nodup ∧
    ∀ s, s ∈ sortedSigs input ↔ s ∈ (allRows input).map ParsedRow.sig := by
  have hperm := List.perm_insertionSort (sigLE (avgTable input)) ((avgTable input).map Prod.fst)
  refine ⟨?_, ?_, fun s => ?_⟩
  · haveI : IsTotal (List Char) (sigLE (avgTable input)) :=
      ⟨fun a b => le_total (sortKey (avgTable input) a) (sortKey (avgTable input) b)⟩
    haveI : IsTrans (List Char) (sigLE (avgTable input)) :=
      ⟨fun a b c hab hbc => le_trans hab hbc⟩
    have hsorted := List.sorted_insertionSort (sigLE (avgTable input))
      ((avgTable input).map Prod.fst)
    exact List.Pairwise.map (sortKey (avgTable input)) (fun a b hab => hab) hsorted
  · rw [sortedSigs, hperm.nodup_iff, map_fst_avgTable]
    exact firstDedup_nodup _
  · rw [sortedSigs, hperm.mem_iff, map_fst_avgTable, mem_firstDedup]

/-! ### Permutation machinery for claim C6 -/

theorem alookup_some_split {K A : Type} [DecidableEq K] :
    ∀ (l : List (K × A)) (k : K) (v : A), alookup l k = some v →
      ∃ a b, l = a ++ (k, v) :: b ∧ k ∉ a.map Prod.fst := by
  intro l
  induction l with
  | nil =>
    intro k v h
    exact absurd h (by simp [alookup])
  | cons e t ih =>
    intro k v h
    obtain ⟨k0, a0⟩ := e
    rw [alookup] at h
    by_cases hk : k = k0
    · rw [if_pos hk] at h
      injection h with h'
      exact ⟨[], t, by simp [← hk, ← h'], by simp⟩
    · rw [if_neg hk] at h
      obtain ⟨a, b, hab, hnot⟩ := ih k v h
      refine ⟨(k0, a0) :: a, b, by simp [hab], ?_⟩
      simp only [List.map_cons, List.mem_cons]
      rintro (hc | hc)
      · exact hk hc
      · exact hnot hc

theorem alist_perm_of_lookup_eq {K A : Type} [DecidableEq K] :
    ∀ (l₁ l₂ : List (K × A)), (l₁.map Prod.fst).Nodup → (l₂.map Prod.fst).Nodup →
      (∀ k, alookup l₁ k = alookup l₂ k) → l₁.Perm l₂ := by
  intro l₁
  induction l₁ with
  | nil =>
    intro l₂ _ _ h
    cases l₂ with
    | nil => exact List.Perm.refl _
    | cons e t =>
      exfalso
      obtain ⟨k0, a0⟩ := e
      have hh := h k0
      rw [alookup, alookup, if_pos rfl] at hh
      exact Option.noConfusion hh
  | cons e t₁ ih =>
    obtain ⟨k, v⟩ := e
    intro l₂ hn₁ hn₂ h
    have hk : alookup l₂ k = some v := by
      have hh := h k
      rw [alookup, if_pos rfl] at hh
      exact hh.symm
    obtain ⟨a, b, hab, hka⟩ := alookup_some_split l₂ k v hk
    subst hab
    have hmid : (a ++ (k, v) :: b).Perm ((k, v) :: (a ++ b)) := List.perm_middle
    have hn₂' : ((a ++ b).map Prod.fst).Nodup ∧ k ∉ (a ++ b).map Prod.fst := by
      have hmap : ((a ++ (k, v) :: b).map Prod.fst).Nodup := hn₂
      rw [List.map_append, List.map_cons, List.nodup_middle] at hmap
      rcases List.nodup_cons.1 hmap with ⟨hknot, hrest⟩
      exact ⟨by rwa [List.map_append], by rwa [List.map_append]⟩
    have hn₁' : k ∉ t₁.map Prod.fst ∧ (t₁.map Prod.fst).Nodup := by
      rw [List.map_cons, List.nodup_cons] at hn₁
      exact hn₁
    have hlook : ∀ k', alookup t₁ k' = alookup (a ++ b) k' := by
      intro k'
      by_cases hk' : k' = k
      · subst hk'
        rw [(alookup_eq_none_iff t₁ k').2 hn₁'.1, (alookup_eq_none_iff _ k').2 hn₂'.2]
      · have hh := h k'
        rw [alookup, if_neg hk'] at hh
        rw [hh, alookup_append, alookup_append]
        cases ha : alookup a k' with
        | some x => rfl
        | none => rw [alookup, if_neg hk']
    have hperm := ih (a ++ b) hn₁'.2 hn₂'.1 hlook
    exact (hperm.cons (k, v)).trans hmid.symm

/-! ### Claim C6: order invariance of the aggregate and report -/

/-- Claim C6 (amended): reinterleaving the per-process streams (every
process identifier keeps the same line subsequence) preserves the
value-independent content of the run: the process count, the multiset of
parsed stat rows with their captured text (overall and per signature), and
the set of signatures that receive a report row.  The aggregate's numeric
values and the printed report need not coincide: the program sums IEEE-754
doubles in dict-insertion order, which the interleaving changes, and
signatures tied on mean rank render in interleaving-dependent order (the
counterexample shows two reinterleavings whose reports differ). -/
theorem claim_C6_amended (xs ys : List (List Char))
    (hl : ∀ p, linesOfPid p xs = linesOfPid p ys) :
    (demux xs).streams.length = (demux ys).streams.length ∧
    (allRows xs).Perm (allRows ys) ∧
    (∀ s, ((allRows xs).filter (fun r => decide (r.sig = s))).Perm
      ((allRows ys).filter (fun r => decide (r.sig = s)))) ∧
    (∀ s, s ∈ sortedSigs xs ↔ s ∈ sortedSigs ys) := by
  obtain ⟨hx1, hx2, hx3⟩ := demux_spec xs
  obtain ⟨hy1, hy2, hy3⟩ := demux_spec ys
  have hkept : ∀ p, keptLines p xs = keptLines p ys := fun p => by
    rw [keptLines, keptLines, hl p]
  have hslook : ∀ p, alookup (demux xs).streams p = alookup (demux ys).streams p := by
    intro p
    rw [hx3 p, hy3 p, hkept p]
  have hsnodX : ((demux xs).streams.map Prod.fst).Nodup := by
    rw [hx2]; exact firstDedup_nodup _
  have hsnodY : ((demux ys).streams.map Prod.fst).Nodup := by
    rw [hy2]; exact firstDedup_nodup _
  have hsperm : (demux xs).streams.Perm (demux ys).streams :=
    alist_perm_of_lookup_eq _ _ hsnodX hsnodY hslook
  have hrows : (allRows xs).Perm (allRows ys) := by
    rw [allRows, allRows]
    exact hsperm.flatMap_right _
  refine ⟨hsperm.length_eq, hrows, fun s => hrows.filter _, fun s => ?_⟩
  have hpx := List.perm_insertionSort (sigLE (avgTable xs)) ((avgTable xs).map Prod.fst)
  have hpy := List.perm_insertionSort (sigLE (avgTable ys)) ((avgTable ys).map Prod.fst)
  rw [sortedSigs, sortedSigs, hpx.mem_iff, hpy.mem_iff, map_fst_avgTable,
    map_fst_avgTable, mem_firstDedup, mem_firstDedup]
  exact (hrows.map ParsedRow.sig).mem_iff

theorem linesOfPid_two_pids_nil (p : List Char) (l : List (List Char))
    (h1 : ¬ p = ("1").toList) (h2 : ¬ p = ("2").toList)
    (hml : ∀ x ∈ l, scanPid x = some (("1").toList) ∨ scanPid x = some (("2").toList)) :
    linesOfPid p l = [] := by
  rw [linesOfPid, List.filter_eq_nil_iff]
  intro x hx
  have hns : ¬ scanPid x = some p := by
    rcases hml x hx with hc | hc
    · rw [hc]
      intro he
      injection he with he'
      exact h1 he'.symm
    · rw [hc]
      intro he
      injection he with he'
      exact h2 he'.symm
  simp [hns]

theorem linesOfPid_exC6ab (p : List Char) : linesOfPid p exC6a = linesOfPid p exC6b := by
  by_cases h1 : p = ("1").toList
  · subst h1; decide
  · by_cases h2 : p = ("2").toList
    · subst h2; decide
    · rw [linesOfPid_two_pids_nil p exC6a h1 h2 (by decide),
        linesOfPid_two_pids_nil p exC6b h1 h2 (by decide)]

/-- Claim C6, counterexample: the two inputs are reinterleavings of the same
two per-process streams (every pid's line subsequence is identical), yet the
printed reports differ — the two signatures tie on mean rank 1.0 and the
stable sort preserves the differing dict insertion orders. -/
theorem claim_C6_counterexample :
    (∀ p, linesOfPid p exC6a = linesOfPid p exC6b) ∧
    ¬ reportOutput exC6a = reportOutput exC6b :=
  ⟨linesOfPid_exC6ab, by decide⟩

theorem linesOfPid_exC6cd (p : List Char) : linesOfPid p exC6c = linesOfPid p exC6d := by
  by_cases h1 : p = ("1").toList
  · subst h1; decide
  · by_cases h2 : p = ("2").toList
    · subst h2; decide
    · rw [linesOfPid_two_pids_nil p exC6c h1 h2 (by decide),
        linesOfPid_two_pids_nil p exC6d h1 h2 (by decide)]

/-- Witness for the amended claim C6 at the concrete reinterleavings
`exC6c`/`exC6d`: the process counts agree, signature `1:100:0` receives the
same rows in both, and it is reported in one interleaving exactly when it is
reported in the other. -/
theorem claim_C6_witness :
    (demux exC6c).streams.length = (demux exC6d).streams.length ∧
    ((allRows exC6c).filter (fun r => decide (r.sig = ("1:100:0").toList))).Perm
      ((allRows exC6d).filter (fun r => decide (r.sig = ("1:100:0").toList))) ∧
    ((("1:100:0").toList) ∈ sortedSigs exC6c ↔ (("1:100:0").toList) ∈ sortedSigs exC6d) := by
  obtain ⟨h1, h2, h3, h4⟩ := claim_C6_amended exC6c exC6d linesOfPid_exC6cd
  exact ⟨h1, h3 _, h4 _⟩

/-! ### Claim C8: degenerate report -/

/-- Claim C8: whenever no eligible process stream was found (in particular
for empty input), the program still prints, without error: the header line
reading `across 0 processes`, an underline of `=` of the header's length,
the column-heading line, and the per-column underline row — and nothing
else (zero data rows). -/
theorem claim_C8 (input : List (List Char)) (h : (demux input).streams = []) :
    reportOutput input =
      [' ' :: ("Average Rule Profile Statistics (across 0 processes) (all rules)").toList,
       ' ' :: List.replicate
         (("Average Rule Profile Statistics (across 0 processes) (all rules)").toList).length '=',
       fmtRow headings,
       fmtRow (headings.map (fun hd => List.replicate hd.length '='))] := by
  have havg : avgTable input = [] := by
    rw [avgTable, h]
    rfl
  have hsort : sortedSigs input = [] := by
    rw [sortedSigs, havg]
    rfl
  rw [reportOutput, h, hsort]
  simp only [List.map_nil]
  decide

/-- Witness for claim C8 at a concrete input with lines but no eligible
stream (and, a fortiori, the empty input behaves the same). -/
theorem claim_C8_witness :
    reportOutput [("no process identifier here").toList] =
      [' ' :: ("Average Rule Profile Statistics (across 0 processes) (all rules)").toList,
       ' ' :: List.replicate
         (("Average Rule Profile Statistics (across 0 processes) (all rules)").toList).length '=',
       fmtRow headings,
       fmtRow (headings.map (fun hd => List.replicate hd.length '='))] :=
  claim_C8 [("no process identifier here").toList] (by decide)

/-! ### Claim C10: the rightmost pid token wins -/

theorem takeWhile_append_of_all {p : Char → Bool} :
    ∀ (s rest : List Char), (∀ c ∈ s, p c = true) → headNot p rest →
      (s ++ rest).takeWhile p = s ∧ (s ++ rest).dropWhile p = rest := by
  intro s
  induction s with
  | nil =>
    intro rest _ h2
    cases rest with
    | nil => simp
    | cons c t =>
      have hc : p c = false := h2
      rw [List.nil_append]
      constructor
      · rw [List.takeWhile_cons, hc]
        rfl
      · rw [List.dropWhile_cons, hc]
        rfl
  | cons c s' ih =>
    intro rest h1 h2
    have hc : p c = true := h1 c (List.mem_cons_self _ _)
    have hrec := ih rest (fun c' hc' => h1 c' (List.mem_cons_of_mem _ hc')) h2
    constructor
    · rw [List.cons_append, List.takeWhile_cons, hc, if_pos rfl, hrec.1]
    · rw [List.cons_append, List.dropWhile_cons, hc, if_pos rfl, hrec.2]

theorem tryPidAt_not_bracket (c : Char) (r : List Char) (h : ¬ c = '[') :
    tryPidAt (c :: r) = none := by
  simp [tryPidAt, h]

theorem scanPid_eq_none_of_no_bracket (cs : List Char) (h : ∀ c ∈ cs, ¬ c = '[') :
    scanPid cs = none := by
  induction cs with
  | nil => rfl
  | cons c r ih =>
    rw [scanPid, ih (fun c' hc' => h c' (List.mem_cons_of_mem _ hc')),
      tryPidAt_not_bracket c r (h c (List.mem_cons_self _ _))]

theorem scanPid_append_some (a t : List Char) (g : List Char) (h : scanPid t = some g) :
    scanPid (a ++ t) = some g := by
  induction a with
  | nil => simpa using h
  | cons c a' ih =>
    rw [List.cons_append, scanPid, ih]

theorem scanPid_token (ds b : List Char) (hne : ¬ ds = [])
    (hdig : ∀ c ∈ ds, c.isDigit = true) (hb : scanPid b = none) :
    scanPid ('[' :: (ds ++ ']' :: ':' :: b)) = some ds := by
  have hnone : ∀ ds' : List Char, (∀ c ∈ ds', c.isDigit = true) →
      scanPid (ds' ++ ']' :: ':' :: b) = none := by
    intro ds'
    induction ds' with
    | nil =>
      intro _
      rw [List.nil_append, scanPid, scanPid, hb,
        tryPidAt_not_bracket ':' b (by decide), tryPidAt_not_bracket ']' _ (by decide)]
    | cons c r ih =>
      intro hd
      have hcdig : c.isDigit = true := hd c (List.mem_cons_self _ _)
      have hcnb : ¬ c = '[' := by
        intro he
        rw [he] at hcdig
        exact absurd hcdig (by decide)
      rw [List.cons_append, scanPid, ih (fun c' hc' => hd c' (List.mem_cons_of_mem _ hc')),
        tryPidAt_not_bracket c _ hcnb]
  rw [scanPid, hnone ds hdig]
  have htk := takeWhile_append_of_all ds (']' :: ':' :: b) hdig
    (by decide : Char.isDigit ']' = false)
  simp [tryPidAt, htk.1, htk.2, List.isEmpty_iff, hne]

/-- Claim C10: if a line decomposes as arbitrary text, then a `[<digits>]:`
token, then a suffix containing no further token, `scanPid` captures that
token's digits — the rightmost token of the line — regardless of what the
prefix contains (in particular, earlier `[<digits>]:` tokens). -/
theorem claim_C10 (a ds b : List Char) (hne : ¬ ds = [])
    (hdig : ∀ c ∈ ds, c.isDigit = true) (hb : scanPid b = none) :
    scanPid (a ++ '[' :: (ds ++ ']' :: ':' :: b)) = some ds :=
  scanPid_append_some a _ ds (scanPid_token ds b hne hdig hb)

/-- Witness for claim C10: the line `snort[11]: x [22]: y` carries two pid
tokens; the captured pid is `22`, from the rightmost token. -/
theorem claim_C10_witness :
    scanPid ((("snort[11]: x ").toList) ++ '[' :: ((("22").toList) ++ ']' :: ':' ::
      ((" y").toList))) = some (("22").toList) :=
  claim_C10 (("snort[11]: x ").toList) (("22").toList) ((" y").toList)
    (by decide) (by decide) (by decide)

/-! ### Claim C2: failed input open -/

/-- Claim C2, counterexample: with a filename whose open fails, the
filename is reported on standard error, but the run does not go on to print
the empty report: the standard-output outcome is the unhandled
`UnboundLocalError`, not `Except.ok` of the empty report. -/
theorem claim_C2_counterexample :
    (parseMessagesRun "missing.log" none).1 = ["Error opening missing.log"] ∧
    ¬ (parseMessagesRun "missing.log" none).2 = Except.ok (reportOutput []) :=
  ⟨rfl, fun h => Except.noConfusion h⟩

/-- Claim C2 (amended): when opening the named file fails, the failure is
reported to the error stream with the filename, and execution then aborts
with an unhandled `UnboundLocalError` when the loop iterates the
never-assigned file handle — no aggregation output or report is printed. -/
theorem claim_C2_amended (fn : String) :
    (parseMessagesRun fn none).1 = ["Error opening " ++ fn] ∧
    (parseMessagesRun fn none).2 =
      Except.error ("UnboundLocalError: local variable referenced before assignment") :=
  ⟨rfl, rfl⟩

/-! ### Claim C3: shape of lines that parse as stat rows -/

theorem headNot_dropWhile (p : Char → Bool) (l : List Char) :
    headNot p (l.dropWhile p) := by
  induction l with
  | nil => trivial
  | cons c t ih =>
    cases hpc : p c with
    | true =>
      rw [List.dropWhile_cons, hpc, if_pos rfl]
      exact ih
    | false =>
      rw [List.dropWhile_cons, hpc]
      simp only [Bool.false_eq_true, if_false]
      exact hpc

theorem parseDigits_sound (cs d r : List Char) (h : parseDigits cs = some (d, r)) :
    cs = d ++ r ∧ intShape d ∧ headNot Char.isDigit r := by
  rw [parseDigits] at h
  by_cases he : (cs.takeWhile Char.isDigit).isEmpty
  · rw [if_pos he] at h
    exact Option.noConfusion h
  · rw [if_neg he] at h
    injection h with h'
    have h1 : cs.takeWhile Char.isDigit = d := congrArg Prod.fst h'
    have h2 : cs.dropWhile Char.isDigit = r := congrArg Prod.snd h'
    refine ⟨by rw [← h1, ← h2, List.takeWhile_append_dropWhile], ⟨?_, ?_⟩, ?_⟩
    · intro hd
      rw [h1, List.isEmpty_iff] at he
      exact he hd
    · intro c hc
      rw [← h1] at hc
      exact List.mem_takeWhile_imp hc
    · rw [← h2]
      exact headNot_dropWhile _ _

theorem parseDigits_exact (d rest : List Char) (h : intShape d)
    (hr : headNot Char.isDigit rest) :
    parseDigits (d ++ rest) = some (d, rest) := by
  have htk := takeWhile_append_of_all d rest h.2 hr
  rw [parseDigits, htk.1, htk.2, if_neg (by rw [List.isEmpty_iff]; exact h.1)]

theorem parseDigits_progress (d rest : List Char) (h : intShape d) :
    ∃ d' r', parseDigits (d ++ rest) = some (d', r') := by
  cases d with
  | nil => exact absurd rfl h.1
  | cons c d2 =>
    have hc : c.isDigit = true := h.2 c (List.mem_cons_self _ _)
    refine ⟨c :: (d2 ++ rest).takeWhile Char.isDigit, (d2 ++ rest).dropWhile Char.isDigit, ?_⟩
    rw [List.cons_append, parseDigits]
    simp [List.takeWhile_cons, List.dropWhile_cons, hc]

theorem parseSpaces_sound (cs r : List Char) (h : parseSpaces cs = some r) :
    ∃ s, cs = s ++ r ∧ spaceRun s := by
  rw [parseSpaces] at h
  by_cases he : (cs.takeWhile (fun c => c == ' ')).isEmpty
  · rw [if_pos he] at h
    exact Option.noConfusion h
  · rw [if_neg he] at h
    injection h with h'
    refine ⟨cs.takeWhile (fun c => c == ' '), by rw [← h', List.takeWhile_append_dropWhile],
      ?_, ?_⟩
    · intro hd
      rw [List.isEmpty_iff] at he
      exact he hd
    · intro c hc
      have hmem := @List.mem_takeWhile_imp Char (fun c => c == ' ') cs c hc
      exact beq_iff_eq.1 hmem

theorem parseSpaces_exact (s rest : List Char) (h : spaceRun s)
    (hr : headNot (fun c => c == ' ') rest) :
    parseSpaces (s ++ rest) = some rest := by
  have htk := takeWhile_append_of_all s rest
    (fun c hc => by rw [h.2 c hc]; rfl) hr
  rw [parseSpaces, htk.1, htk.2, if_neg (by rw [List.isEmpty_iff]; exact h.1)]

theorem headNot_space_of_int (f rest : List Char) (h : intShape f) :
    headNot (fun c => c == ' ') (f ++ rest) := by
  cases f with
  | nil => exact absurd rfl h.1
  | cons c f' =>
    show (c == ' ') = false
    have hc := h.2 c (List.mem_cons_self _ _)
    by_cases hsp : c = ' '
    · rw [hsp] at hc
      exact absurd hc (by decide)
    · exact beq_eq_false_iff_ne.2 hsp

theorem headNot_space_of_dec (a b rest : List Char) (ha : intShape a) :
    headNot (fun c => c == ' ') ((a ++ '.' :: b) ++ rest) := by
  cases a with
  | nil => exact absurd rfl ha.1
  | cons c a' =>
    show (c == ' ') = false
    have hc := ha.2 c (List.mem_cons_self _ _)
    by_cases hsp : c = ' '
    · rw [hsp] at hc
      exact absurd hc (by decide)
    · exact beq_eq_false_iff_ne.2 hsp

theorem headNot_digit_of_spaceRun (s rest : List Char) (h : spaceRun s) :
    headNot Char.isDigit (s ++ rest) := by
  cases s with
  | nil => exact absurd rfl h.1
  | cons c s' =>
    show c.isDigit = false
    rw [h.2 c (List.mem_cons_self _ _)]
    decide

theorem parseSepInt_sound (cs f r : List Char) (h : parseSepInt cs = some (f, r)) :
    ∃ s, cs = s ++ (f ++ r) ∧ spaceRun s ∧ intShape f := by
  rw [parseSepInt] at h
  cases hs : parseSpaces cs with
  | none =>
    rw [hs] at h
    exact Option.noConfusion h
  | some r1 =>
    rw [hs] at h
    obtain ⟨s, hcs, hsp⟩ := parseSpaces_sound cs r1 hs
    obtain ⟨hr1, hint, _⟩ := parseDigits_sound r1 f r h
    exact ⟨s, by rw [hcs, hr1], hsp, hint⟩

theorem parseSepInt_exact (s f rest : List Char) (hs : spaceRun s) (hf : intShape f)
    (hr : headNot Char.isDigit rest) :
    parseSepInt (s ++ (f ++ rest)) = some (f, rest) := by
  rw [parseSepInt, parseSpaces_exact s (f ++ rest) hs (headNot_space_of_int f rest hf)]
  exact parseDigits_exact f rest hf hr

theorem parseSepInt_progress (s f rest : List Char) (hs : spaceRun s) (hf : intShape f) :
    ∃ f' r', parseSepInt (s ++ (f ++ rest)) = some (f', r') := by
  rw [parseSepInt, parseSpaces_exact s (f ++ rest) hs (headNot_space_of_int f rest hf)]
  exact parseDigits_progress f rest hf

theorem parseSepDec_sound (cs f r : List Char) (h : parseSepDec cs = some (f, r)) :
    ∃ s, cs = s ++ (f ++ r) ∧ spaceRun s ∧ decShape f := by
  rw [parseSepDec] at h
  split at h
  · exact Option.noConfusion h
  · next r1 hs =>
    split at h
    · exact Option.noConfusion h
    · next a r2 hd =>
      split at h
      · next r3 =>
        split at h
        · exact Option.noConfusion h
        · next b r4 hb =>
          injection h with h'
          have hfe : a ++ '.' :: b = f := congrArg Prod.fst h'
          have hre : r4 = r := congrArg Prod.snd h'
          obtain ⟨s, hcs, hsp⟩ := parseSpaces_sound cs r1 hs
          obtain ⟨hr1eq, hinta, _⟩ := parseDigits_sound r1 a ('.' :: r3) hd
          obtain ⟨hr3eq, hintb, _⟩ := parseDigits_sound r3 b r4 hb
          refine ⟨s, ?_, hsp, a, b, hfe.symm, hinta, hintb⟩
          rw [hcs, hr1eq, hr3eq, hre, ← hfe]
          rw [List.append_assoc, List.cons_append]
      · exact Option.noConfusion h

theorem parseSepDec_exact (s a b rest : List Char) (hs : spaceRun s) (ha : intShape a)
    (hb : intShape b) (hr : headNot Char.isDigit rest) :
    parseSepDec (s ++ ((a ++ '.' :: b) ++ rest)) = some (a ++ '.' :: b, rest) := by
  have hassoc : (a ++ '.' :: b) ++ rest = a ++ ('.' :: (b ++ rest)) := by
    rw [List.append_assoc, List.cons_append]
  have h1 := parseSpaces_exact s ((a ++ '.' :: b) ++ rest) hs
    (headNot_space_of_dec a b rest ha)
  have h2 := parseDigits_exact a ('.' :: (b ++ rest)) ha
    (by decide : Char.isDigit '.' = false)
  have h3 := parseDigits_exact b rest hb hr
  rw [hassoc] at h1
  simp only [parseSepDec, hassoc, h1, h2, h3]

theorem tryStatAt_sound (cs : List Char) (g : StatGroups) (h : tryStatAt cs = some g) :
    ∃ ds t, cs = '[' :: (ds ++ ']' :: ':' :: t) ∧ intShape ds ∧ statTail t := by
  cases cs with
  | nil => exact Option.noConfusion h
  | cons c r =>
    rw [tryStatAt] at h
    by_cases hc : c = '['
    case neg =>
      rw [if_neg hc] at h
      exact Option.noConfusion h
    case pos =>
    rw [if_pos hc] at h
    cases hd : parseDigits r with
    | none =>
      rw [hd] at h
      exact Option.noConfusion h
    | some pr =>
    obtain ⟨ds0, r1⟩ := pr
    rw [hd] at h
    cases r1 with
    | nil => exact Option.noConfusion h
    | cons c1 rr =>
    cases rr with
    | nil => exact Option.noConfusion h
    | cons c2 r2 =>
    have hcv : (if c1 = ']' then if c2 = ':' then statFieldsChain r2
      else none else none) = some g := h
    by_cases h1 : c1 = ']'
    case neg =>
      rw [if_neg h1] at hcv
      exact Option.noConfusion hcv
    case pos =>
    by_cases h2 : c2 = ':'
    case neg =>
      rw [if_pos h1, if_neg h2] at hcv
      exact Option.noConfusion hcv
    case pos =>
    rw [if_pos h1, if_pos h2] at hcv
    rw [statFieldsChain] at hcv
    cases q1 : parseSepInt r2 with
    | none =>
      rw [q1] at hcv
      exact Option.noConfusion hcv
    | some p1 =>
    obtain ⟨fl1, R3⟩ := p1
    rw [q1] at hcv
    simp only [Option.some_bind] at hcv
    cases q2 : parseSepInt R3 with
    | none =>
      rw [q2] at hcv
      exact Option.noConfusion hcv
    | some p2 =>
    obtain ⟨fl2, R4⟩ := p2
    rw [q2] at hcv
    simp only [Option.some_bind] at hcv
    cases q3 : parseSepInt R4 with
    | none =>
      rw [q3] at hcv
      exact Option.noConfusion hcv
    | some p3 =>
    obtain ⟨fl3, R5⟩ := p3
    rw [q3] at hcv
    simp only [Option.some_bind] at hcv
    cases q4 : parseSepInt R5 with
    | none =>
      rw [q4] at hcv
      exact Option.noConfusion hcv
    | some p4 =>
    obtain ⟨fl4, R6⟩ := p4
    rw [q4] at hcv
    simp only [Option.some_bind] at hcv
    cases q5 : parseSepInt R6 with
    | none =>
      rw [q5] at hcv
      exact Option.noConfusion hcv
    | some p5 =>
    obtain ⟨fl5, R7⟩ := p5
    rw [q5] at hcv
    simp only [Option.some_bind] at hcv
    cases q6 : parseSepInt R7 with
    | none =>
      rw [q6] at hcv
      exact Option.noConfusion hcv
    | some p6 =>
    obtain ⟨fl6, R8⟩ := p6
    rw [q6] at hcv
    simp only [Option.some_bind] at hcv
    cases q7 : parseSepInt R8 with
    | none =>
      rw [q7] at hcv
      exact Option.noConfusion hcv
    | some p7 =>
    obtain ⟨fl7, R9⟩ := p7
    rw [q7] at hcv
    simp only [Option.some_bind] at hcv
    cases q8 : parseSepInt R9 with
    | none =>
      rw [q8] at hcv
      exact Option.noConfusion hcv
    | some p8 =>
    obtain ⟨fl8, R10⟩ := p8
    rw [q8] at hcv
    simp only [Option.some_bind] at hcv
    cases q9 : parseSepDec R10 with
    | none =>
      rw [q9] at hcv
      exact Option.noConfusion hcv
    | some p9 =>
    obtain ⟨fl9, R11⟩ := p9
    rw [q9] at hcv
    simp only [Option.some_bind] at hcv
    cases q10 : parseSepDec R11 with
    | none =>
      rw [q10] at hcv
      exact Option.noConfusion hcv
    | some p10 =>
    obtain ⟨fl10, R12⟩ := p10
    rw [q10] at hcv
    simp only [Option.some_bind] at hcv
    cases q11 : parseSepDec R12 with
    | none =>
      rw [q11] at hcv
      exact Option.noConfusion hcv
    | some p11 =>
    obtain ⟨fl11, R13⟩ := p11
    rw [q11] at hcv
    simp only [Option.some_bind] at hcv
    cases q12 : parseSepInt R13 with
    | none =>
      rw [q12] at hcv
      exact Option.noConfusion hcv
    | some p12 =>
    obtain ⟨fl12, R14⟩ := p12
    rw [q12] at hcv
    obtain ⟨req, hds0, hnd⟩ := parseDigits_sound r ds0 (c1 :: c2 :: r2) hd
    obtain ⟨t1, w1, hts1, htf1⟩ := parseSepInt_sound r2 fl1 R3 q1
    obtain ⟨t2, w2, hts2, htf2⟩ := parseSepInt_sound R3 fl2 R4 q2
    obtain ⟨t3, w3, hts3, htf3⟩ := parseSepInt_sound R4 fl3 R5 q3
    obtain ⟨t4, w4, hts4, htf4⟩ := parseSepInt_sound R5 fl4 R6 q4
    obtain ⟨t5, w5, hts5, htf5⟩ := parseSepInt_sound R6 fl5 R7 q5
    obtain ⟨t6, w6, hts6, htf6⟩ := parseSepInt_sound R7 fl6 R8 q6
    obtain ⟨t7, w7, hts7, htf7⟩ := parseSepInt_sound R8 fl7 R9 q7
    obtain ⟨t8, w8, hts8, htf8⟩ := parseSepInt_sound R9 fl8 R10 q8
    obtain ⟨t9, w9, hts9, htf9⟩ := parseSepDec_sound R10 fl9 R11 q9
    obtain ⟨t10, w10, hts10, htf10⟩ := parseSepDec_sound R11 fl10 R12 q10
    obtain ⟨t11, w11, hts11, htf11⟩ := parseSepDec_sound R12 fl11 R13 q11
    obtain ⟨t12, w12, hts12, htf12⟩ := parseSepInt_sound R13 fl12 R14 q12
    rw [w12] at w11
    rw [w11] at w10
    rw [w10] at w9
    rw [w9] at w8
    rw [w8] at w7
    rw [w7] at w6
    rw [w6] at w5
    rw [w5] at w4
    rw [w4] at w3
    rw [w3] at w2
    rw [w2] at w1
    refine ⟨ds0, r2, ?_, hds0, t1, fl1, t2, fl2, t3, fl3, t4, fl4, t5, fl5, t6, fl6, t7, fl7, t8, fl8, t9, fl9, t10, fl10, t11, fl11, t12, fl12, R14, w1,
      hts1, hts2, hts3, hts4, hts5, hts6, hts7, hts8, hts9, hts10, hts11, hts12, htf1, htf2, htf3, htf4, htf5, htf6, htf7, htf8, htf9, htf10, htf11, htf12⟩
    rw [hc, req, h1, h2]

theorem parseSepDec_progress (s a b rest : List Char) (hs : spaceRun s)
    (ha : intShape a) (hb : intShape b) :
    ∃ f2 r2, parseSepDec (s ++ ((a ++ '.' :: b) ++ rest)) = some (f2, r2) := by
  have hassoc : (a ++ '.' :: b) ++ rest = a ++ ('.' :: (b ++ rest)) := by
    rw [List.append_assoc, List.cons_append]
  have h1 := parseSpaces_exact s ((a ++ '.' :: b) ++ rest) hs
    (headNot_space_of_dec a b rest ha)
  have h2 := parseDigits_exact a ('.' :: (b ++ rest)) ha
    (by decide : Char.isDigit '.' = false)
  obtain ⟨b2, r2, h3⟩ := parseDigits_progress b rest hb
  rw [hassoc] at h1
  refine ⟨a ++ '.' :: b2, r2, ?_⟩
  simp only [parseSepDec, hassoc, h1, h2, h3]

theorem fieldsShape_progress : ∀ (ks : List Bool) (t : List Char),
    fieldsShape ks t → (parseFieldsK ks t).isSome = true := by
  intro ks
  induction ks with
  | nil => intro t _; rfl
  | cons k ks ih =>
    intro t ht
    obtain ⟨s, f, t2, heq, hsp, hsh, hrest⟩ := ht
    subst heq
    cases ks with
    | nil =>
      cases k with
      | true =>
        obtain ⟨f2, r2, hp⟩ := parseSepInt_progress s f t2 hsp hsh
        have hp2 : parseFieldK true (s ++ (f ++ t2)) = some (f2, r2) := hp
        rw [parseFieldsK, hp2]
        rfl
      | false =>
        obtain ⟨a, b, hfe, ha, hb⟩ := hsh
        subst hfe
        obtain ⟨f2, r2, hp⟩ := parseSepDec_progress s a b t2 hsp ha hb
        have hp2 : parseFieldK false (s ++ ((a ++ '.' :: b) ++ t2)) = some (f2, r2) := hp
        rw [parseFieldsK, hp2]
        rfl
    | cons k2 ks2 =>
      have hhd : headNot Char.isDigit t2 := by
        obtain ⟨s2, f2, t3, heq2, hsp2, hh1, hh2⟩ := hrest
        rw [heq2]
        exact headNot_digit_of_spaceRun s2 _ hsp2
      cases k with
      | true =>
        have hp2 : parseFieldK true (s ++ (f ++ t2)) = some (f, t2) :=
          parseSepInt_exact s f t2 hsp hsh hhd
        have hr := ih t2 hrest
        rw [parseFieldsK, hp2]
        exact hr
      | false =>
        obtain ⟨a, b, hfe, ha, hb⟩ := hsh
        subst hfe
        have hp2 : parseFieldK false (s ++ ((a ++ '.' :: b) ++ t2)) =
            some (a ++ '.' :: b, t2) :=
          parseSepDec_exact s a b t2 hsp ha hb hhd
        have hr := ih t2 hrest
        rw [parseFieldsK, hp2]
        exact hr

theorem statTail_fieldsShape (t : List Char) (ht : statTail t) :
    fieldsShape statKinds t := by
  obtain ⟨s1, f1, s2, f2, s3, f3, s4, f4, s5, f5, s6, f6, s7, f7, s8, f8, s9, f9,
    s10, f10, s11, f11, s12, f12, rest, heq, hsp1, hsp2, hsp3, hsp4, hsp5, hsp6,
    hsp7, hsp8, hsp9, hsp10, hsp11, hsp12, hf1, hf2, hf3, hf4, hf5, hf6, hf7, hf8,
    hd9, hd10, hd11, hf12⟩ := ht
  subst heq
  refine ⟨s1, f1, _, rfl, hsp1, hf1, ?_⟩
  refine ⟨s2, f2, _, rfl, hsp2, hf2, ?_⟩
  refine ⟨s3, f3, _, rfl, hsp3, hf3, ?_⟩
  refine ⟨s4, f4, _, rfl, hsp4, hf4, ?_⟩
  refine ⟨s5, f5, _, rfl, hsp5, hf5, ?_⟩
  refine ⟨s6, f6, _, rfl, hsp6, hf6, ?_⟩
  refine ⟨s7, f7, _, rfl, hsp7, hf7, ?_⟩
  refine ⟨s8, f8, _, rfl, hsp8, hf8, ?_⟩
  refine ⟨s9, f9, _, rfl, hsp9, hd9, ?_⟩
  refine ⟨s10, f10, _, rfl, hsp10, hd10, ?_⟩
  refine ⟨s11, f11, _, rfl, hsp11, hd11, ?_⟩
  refine ⟨s12, f12, _, rfl, hsp12, hf12, ?_⟩
  trivial

theorem tryStatAt_isSome_of_fields (ds r2 : List Char) (hds : intShape ds)
    (hfs : (parseFieldsK statKinds r2).isSome = true) :
    (tryStatAt ('[' :: (ds ++ ']' :: ':' :: r2))).isSome = true := by
  have e0 := parseDigits_exact ds (']' :: ':' :: r2) hds
    (by decide : Char.isDigit ']' = false)
  have hbr : tryStatAt ('[' :: (ds ++ ']' :: ':' :: r2)) = statFieldsChain r2 := by
    rw [tryStatAt, if_pos rfl, e0]
    rfl
  rw [hbr, statFieldsChain]
  cases q1 : parseSepInt r2 with
  | none =>
    have hq : parseFieldK true r2 = none := q1
    rw [statKinds, parseFieldsK, hq] at hfs
    exact Bool.noConfusion hfs
  | some p1 =>
  obtain ⟨fl1, R3⟩ := p1
  have hq1 : parseFieldK true r2 = some (fl1, R3) := q1
  rw [statKinds, parseFieldsK, hq1] at hfs
  replace hfs : (parseFieldsK [true, true, true, true, true, true, true, false, false, false, true] R3).isSome = true := hfs
  simp only [Option.some_bind]
  cases q2 : parseSepInt R3 with
  | none =>
    have hq : parseFieldK true R3 = none := q2
    rw [parseFieldsK, hq] at hfs
    exact Bool.noConfusion hfs
  | some p2 =>
  obtain ⟨fl2, R4⟩ := p2
  have hq2 : parseFieldK true R3 = some (fl2, R4) := q2
  rw [parseFieldsK, hq2] at hfs
  replace hfs : (parseFieldsK [true, true, true, true, true, true, false, false, false, true] R4).isSome = true := hfs
  simp only [Option.some_bind]
  cases q3 : parseSepInt R4 with
  | none =>
    have hq : parseFieldK true R4 = none := q3
    rw [parseFieldsK, hq] at hfs
    exact Bool.noConfusion hfs
  | some p3 =>
  obtain ⟨fl3, R5⟩ := p3
  have hq3 : parseFieldK true R4 = some (fl3, R5) := q3
  rw [parseFieldsK, hq3] at hfs
  replace hfs : (parseFieldsK [true, true, true, true, true, false, false, false, true] R5).isSome = true := hfs
  simp only [Option.some_bind]
  cases q4 : parseSepInt R5 with
  | none =>
    have hq : parseFieldK true R5 = none := q4
    rw [parseFieldsK, hq] at hfs
    exact Bool.noConfusion hfs
  | some p4 =>
  obtain ⟨fl4, R6⟩ := p4
  have hq4 : parseFieldK true R5 = some (fl4, R6) := q4
  rw [parseFieldsK, hq4] at hfs
  replace hfs : (parseFieldsK [true, true, true, true, false, false, false, true] R6).isSome = true := hfs
  simp only [Option.some_bind]
  cases q5 : parseSepInt R6 with
  | none =>
    have hq : parseFieldK true R6 = none := q5
    rw [parseFieldsK, hq] at hfs
    exact Bool.noConfusion hfs
  | some p5 =>
  obtain ⟨fl5, R7⟩ := p5
  have hq5 : parseFieldK true R6 = some (fl5, R7) := q5
  rw [parseFieldsK, hq5] at hfs
  replace hfs : (parseFieldsK [true, true, true, false, false, false, true] R7).isSome = true := hfs
  simp only [Option.some_bind]
  cases q6 : parseSepInt R7 with
  | none =>
    have hq : parseFieldK true R7 = none := q6
    rw [parseFieldsK, hq] at hfs
    exact Bool.noConfusion hfs
  | some p6 =>
  obtain ⟨fl6, R8⟩ := p6
  have hq6 : parseFieldK true R7 = some (fl6, R8) := q6
  rw [parseFieldsK, hq6] at hfs
  replace hfs : (parseFieldsK [true, true, false, false, false, true] R8).isSome = true := hfs
  simp only [Option.some_bind]
  cases q7 : parseSepInt R8 with
  | none =>
    have hq : parseFieldK true R8 = none := q7
    rw [parseFieldsK, hq] at hfs
    exact Bool.noConfusion hfs
  | some p7 =>
  obtain ⟨fl7, R9⟩ := p7
  have hq7 : parseFieldK true R8 = some (fl7, R9) := q7
  rw [parseFieldsK, hq7] at hfs
  replace hfs : (parseFieldsK [true, false, false, false, true] R9).isSome = true := hfs
  simp only [Option.some_bind]
  cases q8 : parseSepInt R9 with
  | none =>
    have hq : parseFieldK true R9 = none := q8
    rw [parseFieldsK, hq] at hfs
    exact Bool.noConfusion hfs
  | some p8 =>
  obtain ⟨fl8, R10⟩ := p8
  have hq8 : parseFieldK true R9 = some (fl8, R10) := q8
  rw [parseFieldsK, hq8] at hfs
  replace hfs : (parseFieldsK [false, false, false, true] R10).isSome = true := hfs
  simp only [Option.some_bind]
  cases q9 : parseSepDec R10 with
  | none =>
    have hq : parseFieldK false R10 = none := q9
    rw [parseFieldsK, hq] at hfs
    exact Bool.noConfusion hfs
  | some p9 =>
  obtain ⟨fl9, R11⟩ := p9
  have hq9 : parseFieldK false R10 = some (fl9, R11) := q9
  rw [parseFieldsK, hq9] at hfs
  replace hfs : (parseFieldsK [false, false, true] R11).isSome = true := hfs
  simp only [Option.some_bind]
  cases q10 : parseSepDec R11 with
  | none =>
    have hq : parseFieldK false R11 = none := q10
    rw [parseFieldsK, hq] at hfs
    exact Bool.noConfusion hfs
  | some p10 =>
  obtain ⟨fl10, R12⟩ := p10
  have hq10 : parseFieldK false R11 = some (fl10, R12) := q10
  rw [parseFieldsK, hq10] at hfs
  replace hfs : (parseFieldsK [false, true] R12).isSome = true := hfs
  simp only [Option.some_bind]
  cases q11 : parseSepDec R12 with
  | none =>
    have hq : parseFieldK false R12 = none := q11
    rw [parseFieldsK, hq] at hfs
    exact Bool.noConfusion hfs
  | some p11 =>
  obtain ⟨fl11, R13⟩ := p11
  have hq11 : parseFieldK false R12 = some (fl11, R13) := q11
  rw [parseFieldsK, hq11] at hfs
  replace hfs : (parseFieldsK [true] R13).isSome = true := hfs
  simp only [Option.some_bind]
  cases q12 : parseSepInt R13 with
  | none =>
    have hq : parseFieldK true R13 = none := q12
    rw [parseFieldsK, hq] at hfs
    exact Bool.noConfusion hfs
  | some p12 =>
  obtain ⟨fl12, R14⟩ := p12
  simp only [Option.map_some']
  rfl

theorem tryStatAt_progress (ds t : List Char) (hds : intShape ds) (ht : statTail t) :
    (tryStatAt ('[' :: (ds ++ ']' :: ':' :: t))).isSome = true :=
  tryStatAt_isSome_of_fields ds t hds
    (fieldsShape_progress statKinds t (statTail_fieldsShape t ht))

theorem scanStatLine_some_iff (l : List Char) :
    (∃ g, scanStatLine l = some g) ↔
      ∃ pre t, l = pre ++ t ∧ ∃ g, tryStatAt t = some g := by
  induction l with
  | nil =>
    constructor
    · rintro ⟨g, h⟩
      exact Option.noConfusion h
    · rintro ⟨pre, t, heq, g, ht⟩
      obtain ⟨hpre, htn⟩ := List.append_eq_nil.1 heq.symm
      rw [htn] at ht
      exact Option.noConfusion ht
  | cons c r ih =>
    constructor
    · rintro ⟨g, h⟩
      rw [scanStatLine] at h
      cases hs : scanStatLine r with
      | some g2 =>
        obtain ⟨pre, t, heq, hg⟩ := ih.1 ⟨g2, hs⟩
        exact ⟨c :: pre, t, by rw [heq, List.cons_append], hg⟩
      | none =>
        rw [hs] at h
        exact ⟨[], c :: r, rfl, g, h⟩
    · rintro ⟨pre, t, heq, g, ht⟩
      cases pre with
      | nil =>
        rw [List.nil_append] at heq
        rw [scanStatLine]
        cases hs : scanStatLine r with
        | some g2 => exact ⟨g2, rfl⟩
        | none =>
          refine ⟨g, ?_⟩
          rw [← heq] at ht
          exact ht
      | cons c2 pre2 =>
        rw [List.cons_append] at heq
        injection heq with h1 h2
        obtain ⟨g2, hg2⟩ := ih.2 ⟨pre2, t, h2, g, ht⟩
        refine ⟨g2, ?_⟩
        rw [scanStatLine, hg2]

/-- Claim C3 (amended): a line is parsed as a Stat Row exactly when, after
some bracketed `[<digits>]:` token in it, there follow twelve
space-separated fields — eight integers, three decimals and one final
integer, in the fixed order — as a prefix of the remaining text; further
trailing content after the twelfth field, including extra fields, is
ignored rather than preventing the parse. -/
theorem claim_C3_amended (l : List Char) :
    (scanStatLine l).isSome = true ↔ hasStatRow l := by
  rw [Option.isSome_iff_exists, scanStatLine_some_iff]
  constructor
  · rintro ⟨pre, t, heq, g, ht⟩
    obtain ⟨ds, t2, heq2, hds, htail⟩ := tryStatAt_sound t g ht
    exact ⟨pre, ds, t2, by rw [heq, heq2], hds, htail⟩
  · rintro ⟨pre, ds, t, heq, hds, htail⟩
    have hp := tryStatAt_progress ds t hds htail
    obtain ⟨g, hg⟩ := Option.isSome_iff_exists.1 hp
    exact ⟨pre, '[' :: (ds ++ ']' :: ':' :: t), heq, g, hg⟩

/-- Claim C3, counterexample: the claim says a line with more than twelve
fields after the identifier does not parse; this thirteen-field line does
parse, capturing the first twelve fields and ignoring the trailing `77`. -/
theorem claim_C3_counterexample :
    scanStatLine exC3 =
      some ⟨("3").toList, ("101").toList, ("1").toList, ("2").toList, ("50").toList,
        ("10").toList, ("2").toList, ("1200").toList, ("24.0").toList,
        ("120.0").toList, ("22.5").toList, ("0").toList⟩ := by
  decide

/-- Witness for the amended claim C3: the thirteen-field line satisfies the
decomposition predicate, by the right-to-left consequence of the amended
equivalence applied at a concrete input. -/
theorem claim_C3_witness : hasStatRow exC3 :=
  (claim_C3_amended exC3).1 (by decide)

end SnortProfiler
